import Mathlib

/-!
Verification development for `src/ogr2osm/osm_geometries.py`.

The Python module is shallowly embedded below. Modelling choices:
* Python floats are modelled by `PyFloat`: either an exact rational value
  or one of the non-finite values `nan`, `inf`, `-inf`. All coordinate
  values appearing in the claims are exactly representable, so rational
  arithmetic coincides with double arithmetic on them.
* Python dicts (used for tags and XML attributes) are modelled as ordered
  association lists with Python `dict.update` semantics: updating an
  existing key replaces its value in place, a fresh key is appended.
* `lxml.etree` elements are modelled by `XmlElement`; `etree.tostring`
  is modelled by `XmlElement.tostring` with standard attribute escaping.
* The process-global `OsmId` counter is modelled by explicit state
  passing of `OsmIdState`.
-/

namespace Ogr2Osm

/-- Model of a Python float: an exact rational or a non-finite value. -/
inductive PyFloat where
  | finite (q : ℚ)
  | nan
  | inf
  | ninf
deriving DecidableEq, Repr

/-- Left-pad a string with the character `'0'` to length `d`. -/
def padZeros (s : String) (d : ℕ) : String :=
  if s.length ≥ d then s else String.mk (List.replicate (d - s.length) '0') ++ s

/-- Round the fraction `a / b` (with `b ≠ 0`) to the nearest natural
number, ties to even (the rounding used by CPython's fixed-point float
formatting). -/
def roundHalfEvenNat (a b : ℕ) : ℕ :=
  let quot := a / b
  let rem := a % b
  if 2 * rem < b then quot
  else if b < 2 * rem then quot + 1
  else if quot % 2 = 0 then quot else quot + 1

/-- Embedding of Python `('%.df' % q)` for a finite value `q`:
render with exactly `d` digits after the decimal point. The magnitude
rounded to `d` decimal places is `|q| * 10^d = (|num| * 10^d) / den`
rounded half-to-even; the computation is phrased on the numerator and
denominator so that it is kernel-reducible. -/
def pctFormatFixed (q : ℚ) (d : ℕ) : String :=
  let n := roundHalfEvenNat (q.num.natAbs * 10 ^ d) q.den
  let ip := n / 10 ^ d
  let fp := n % 10 ^ d
  (if q.num < 0 then "-" else "") ++ toString ip ++
    (if d = 0 then "" else "." ++ padZeros (toString fp) d)

/-- Embedding of Python `('%.df' % v)` on an arbitrary float:
non-finite values render as `nan`, `inf`, `-inf`. -/
def pctFormatFloat (v : PyFloat) (d : ℕ) : String :=
  match v with
  | .finite q => pctFormatFixed q d
  | .nan => "nan"
  | .inf => "inf"
  | .ninf => "-inf"

/-- Embedding of Python `s.strip('0')`: remove the character `'0'`
from both ends of the string (leading and trailing). -/
def pyStripZeros (s : String) : String :=
  String.mk (((s.toList.dropWhile (· = '0')).reverse.dropWhile (· = '0')).reverse)

/-- Embedding of Python `('%d' % i)`. -/
def intFormat (i : ℤ) : String := toString i

/-- Python `d[k] = v` on an ordered dict: replace in place if the key is
present, otherwise append at the end. -/
def dictSet {α : Type} (d : List (String × α)) (k : String) (v : α) :
    List (String × α) :=
  if d.any (fun p => p.1 = k) then
    d.map (fun p => if p.1 = k then (k, v) else p)
  else d ++ [(k, v)]

/-- Python `d.update(e)` on ordered dicts. -/
def dictUpdate {α : Type} (d e : List (String × α)) : List (String × α) :=
  e.foldl (fun acc p => dictSet acc p.1 p.2) d

/-- Python `d[k]` lookup (first binding). -/
def dictLookup {α : Type} (d : List (String × α)) (k : String) : Option α :=
  (d.find? (fun p => p.1 = k)).map (·.2)

mutual

/-- Model of an `lxml.etree` element: a tag name, ordered attributes,
and an ordered list of children. The children are a bespoke list type
(`XmlList`) so that the mutual inductive stays derivable and all
functions on it are structurally recursive. -/
inductive XmlElement where
  | mk (name : String) (attrs : List (String × String))
       (children : XmlList)
deriving DecidableEq, Repr

/-- Bespoke list of `XmlElement`s, the children of an element. -/
inductive XmlList where
  | nil
  | cons (e : XmlElement) (rest : XmlList)
deriving DecidableEq, Repr

end

/-- Tag name of an element. -/
def XmlElement.name : XmlElement → String
  | .mk n _ _ => n

/-- Attribute list of an element. -/
def XmlElement.attrs : XmlElement → List (String × String)
  | .mk _ a _ => a

/-- Children list of an element. -/
def XmlElement.children : XmlElement → XmlList
  | .mk _ _ c => c

/-- Append one element at the end of an `XmlList`. -/
def XmlList.push : XmlList → XmlElement → XmlList
  | .nil, e => .cons e .nil
  | .cons x rest, e => .cons x (rest.push e)

/-- Concatenation of two `XmlList`s. -/
def XmlList.app : XmlList → XmlList → XmlList
  | .nil, l => l
  | .cons x rest, l => .cons x (rest.app l)

/-- Conversion from an ordinary `List` of elements. -/
def XmlList.ofList : List XmlElement → XmlList
  | [] => .nil
  | e :: rest => .cons e (XmlList.ofList rest)

/-- Model of `xmlobject.append(child)`. -/
def XmlElement.appendChild (e c : XmlElement) : XmlElement :=
  .mk e.name e.attrs (e.children.push c)

/-- Standard XML escaping of an attribute value. -/
def escapeAttr (s : String) : String :=
  String.join (s.toList.map fun c =>
    if c = '&' then "&amp;"
    else if c = '<' then "&lt;"
    else if c = '>' then "&gt;"
    else if c = '"' then "&quot;"
    else String.mk [c])

/-- Render an attribute list as a string of ` k="v"` items. -/
def attrsString (attrs : List (String × String)) : String :=
  String.join (attrs.map fun p => " " ++ p.1 ++ "=\"" ++ escapeAttr p.2 ++ "\"")

mutual

/-- Model of `etree.tostring(e, encoding=unicode)`: childless elements
are rendered self-closing, as lxml does. -/
def XmlElement.tostring : XmlElement → String
  | .mk name attrs children =>
    match children with
    | .nil => "<" ++ name ++ attrsString attrs ++ "/>"
    | cs =>
      "<" ++ name ++ attrsString attrs ++ ">" ++ cs.tostrings ++
        "</" ++ name ++ ">"

/-- Concatenated serializations of a list of children. -/
def XmlList.tostrings : XmlList → String
  | .nil => ""
  | .cons e rest => e.tostring ++ rest.tostrings

end

/-- State of the process-wide `OsmId` counter:
`element_id_counter` and `element_id_counter_incr` class attributes. -/
structure OsmIdState where
  element_id_counter : ℤ
  element_id_counter_incr : ℤ
deriving DecidableEq, Repr

namespace OsmId

/-- Initial class-attribute values: counter `0`, increment `-1`. -/
def init : OsmIdState := ⟨0, -1⟩

/-- Embedding of `OsmId.set_id(start_id, is_positive)`: the counter is set
to `start_id`; the increment is set to `1` only when `is_positive` holds. -/
def set_id (s : OsmIdState) (start_id : ℤ) (is_positive : Bool := false) :
    OsmIdState :=
  { element_id_counter := start_id
    element_id_counter_incr :=
      if is_positive then 1 else s.element_id_counter_incr }

end OsmId

/-- Embedding of `OsmGeometry.__get_new_id`: increment the counter by the
configured step and return the new value. -/
def get_new_id (s : OsmIdState) : OsmIdState × ℤ :=
  let c := s.element_id_counter + s.element_id_counter_incr
  (⟨c, s.element_id_counter_incr⟩, c)

/-- Allocator state after `k` successive `__get_new_id` calls. -/
def allocIter (s : OsmIdState) : ℕ → OsmIdState
  | 0 => s
  | k + 1 => (get_new_id (allocIter s k)).1

/-- Identifier returned by the `k`-th allocation (`k ≥ 1`). -/
def kth_id (s : OsmIdState) (k : ℕ) : ℤ :=
  (get_new_id (allocIter s (k - 1))).2

/-- State of an `OsmBoundary` instance. -/
structure OsmBoundary where
  is_valid : Bool
  minlon : ℚ
  maxlon : ℚ
  minlat : ℚ
  maxlat : ℚ
deriving DecidableEq, Repr

namespace OsmBoundary

/-- Embedding of `OsmBoundary.__init__`. -/
def init : OsmBoundary := ⟨false, 0, 0, 0, 0⟩

/-- Embedding of `OsmBoundary.add_envelope`. -/
def add_envelope (b : OsmBoundary) (minx maxx miny maxy : ℚ) :
    OsmBoundary :=
  if b.is_valid then
    { b with
      minlon := min b.minlon minx
      maxlon := max b.maxlon maxx
      minlat := min b.minlat miny
      maxlat := max b.maxlat maxy }
  else
    { is_valid := true
      minlon := minx, maxlon := maxx, minlat := miny, maxlat := maxy }

/-- Embedding of `OsmBoundary.to_xml` up to the final `etree.tostring`:
the constructed `bounds` element. -/
def to_xml_element (b : OsmBoundary) (significant_digits : ℕ) : XmlElement :=
  .mk "bounds"
    [("minlon", pyStripZeros (pctFormatFixed b.minlon significant_digits)),
     ("minlat", pyStripZeros (pctFormatFixed b.minlat significant_digits)),
     ("maxlon", pyStripZeros (pctFormatFixed b.maxlon significant_digits)),
     ("maxlat", pyStripZeros (pctFormatFixed b.maxlat significant_digits))]
    .nil

/-- Embedding of `OsmBoundary.to_xml`. -/
def to_xml (b : OsmBoundary) (significant_digits : ℕ) : String :=
  (b.to_xml_element significant_digits).tostring

end OsmBoundary

/-- Candidate tag values supplied by a builder are Python values that are
either a string or `None`; `Option String` models exactly these. -/
abbrev PyTagValue := Option String

/-- Python truthiness of a candidate tag value: `None` and `""` are falsy. -/
def pyTruthy : PyTagValue → Bool
  | none => false
  | some s => s ≠ ""

/-- Embedding of `OsmGeometry._append_non_empty_tags`: starting from the
current `tags` dict, store `key → [value]` for every truthy value. -/
def append_non_empty_tags (tags0 : List (String × List String))
    (tags : List (String × PyTagValue)) : List (String × List String) :=
  tags.foldl
    (fun acc p =>
      match p.2 with
      | some v => if v ≠ "" then dictSet acc p.1 [v] else acc
      | none => acc)
    tags0

mutual

/-- The three concrete geometry kinds `OsmNode`, `OsmWay`, `OsmRelation`
(each carrying the `OsmGeometry` base data: id and tags). Way nodes and
relation members are bespoke list types so that the mutual inductive is
derivable and recursion stays structural. -/
inductive OsmGeom where
  | node (id : ℤ) (x y : PyFloat) (tags : List (String × List String))
  | way (id : ℤ) (nodes : GeomList) (tags : List (String × List String))
  | relation (id : ℤ) (members : MemberList)
      (tags : List (String × List String))
deriving DecidableEq, Repr

/-- Bespoke list of geometries: the `nodes` of an `OsmWay`. -/
inductive GeomList where
  | nil
  | cons (g : OsmGeom) (rest : GeomList)
deriving DecidableEq, Repr

/-- Bespoke list of `(member, role)` pairs: the `members` of an
`OsmRelation`. -/
inductive MemberList where
  | nil
  | cons (member : OsmGeom) (role : String) (rest : MemberList)
deriving DecidableEq, Repr

end

/-- Identifier of a geometry (the `id` attribute set at construction). -/
def OsmGeom.id : OsmGeom → ℤ
  | .node i _ _ _ => i
  | .way i _ _ => i
  | .relation i _ _ => i

/-- Stored tags of a geometry. -/
def OsmGeom.tags : OsmGeom → List (String × List String)
  | .node _ _ _ t => t
  | .way _ _ t => t
  | .relation _ _ t => t

/-- Conversion of way nodes to an ordinary list. -/
def GeomList.toList : GeomList → List OsmGeom
  | .nil => []
  | .cons g rest => g :: rest.toList

/-- Conversion of relation members to an ordinary list of pairs. -/
def MemberList.toList : MemberList → List (OsmGeom × String)
  | .nil => []
  | .cons g role rest => (g, role) :: rest.toList

/-- Embedding of the list comprehension
`[m[1] for m in self.members if m[0] == member]` in `get_member_role`. -/
def memberRolesOf (ms : MemberList) (member : OsmGeom) : List String :=
  match ms with
  | .nil => []
  | .cons g role rest =>
    if g = member then role :: memberRolesOf rest member
    else memberRolesOf rest member

/-- Embedding of `OsmRelation.get_member_role`: Python `any` on a list of
strings is true when some element is non-empty, and `member_roles[0]` is
the head of the comprehension's result. -/
def get_member_role (ms : MemberList) (member : OsmGeom) : String :=
  let member_roles := memberRolesOf ms member
  if member_roles.any (fun r => r ≠ "") then member_roles.headD "" else ""

/-- The `member_type` discriminator computed inside `OsmRelation.to_xml`
from the concrete class of the member. -/
def member_type : OsmGeom → String
  | .node _ _ _ _ => "node"
  | .way _ _ _ => "way"
  | .relation _ _ _ => "relation"

/-- Loop `for (key, value_list) in self.tags.items(): xmlobject.append(tag)`
shared by all three `to_xml` methods. -/
def appendTagChildren (o : XmlElement)
    (tags : List (String × List String)) : XmlElement :=
  tags.foldl
    (fun o p =>
      o.appendChild
        (.mk "tag" [("k", p.1), ("v", String.intercalate "," p.2)] .nil))
    o

/-- Loop `for node in self.nodes: xmlobject.append(nd)` of `OsmWay.to_xml`. -/
def appendNdChildren (o : XmlElement) : GeomList → XmlElement
  | .nil => o
  | .cons n rest =>
    appendNdChildren (o.appendChild (.mk "nd" [("ref", intFormat n.id)] .nil))
      rest

/-- Loop `for (member, role) in self.members: xmlobject.append(xmlmember)`
of `OsmRelation.to_xml`. -/
def appendMemberChildren (o : XmlElement) : MemberList → XmlElement
  | .nil => o
  | .cons m role rest =>
    appendMemberChildren
      (o.appendChild
        (.mk "member"
          [("type", member_type m), ("ref", intFormat m.id), ("role", role)]
          .nil))
      rest

/-- Embedding of the three `to_xml` overrides up to the final
`etree.tostring` call: the constructed element. -/
def OsmGeom.to_xml_element (g : OsmGeom)
    (attributes : List (String × String)) (significant_digits : ℕ) :
    XmlElement :=
  match g with
  | .node i x y tags =>
    let xmlattrs :=
      [("visible", "true"), ("id", intFormat i),
       ("lat", pyStripZeros (pctFormatFloat y significant_digits)),
       ("lon", pyStripZeros (pctFormatFloat x significant_digits))]
    let xmlattrs := dictUpdate xmlattrs attributes
    appendTagChildren (.mk "node" xmlattrs .nil) tags
  | .way i nodes tags =>
    let xmlattrs := dictUpdate [("visible", "true"), ("id", intFormat i)]
      attributes
    appendTagChildren (appendNdChildren (.mk "way" xmlattrs .nil) nodes) tags
  | .relation i members tags =>
    let xmlattrs := dictUpdate [("visible", "true"), ("id", intFormat i)]
      attributes
    let o := appendMemberChildren (.mk "relation" xmlattrs .nil) members
    let o := o.appendChild
      (.mk "tag" [("k", "type"), ("v", "multipolygon")] .nil)
    appendTagChildren o tags

/-- Embedding of the `to_xml` overrides (full string result). -/
def OsmGeom.to_xml (g : OsmGeom) (attributes : List (String × String))
    (significant_digits : ℕ) : String :=
  (g.to_xml_element attributes significant_digits).tostring

/-- Embedding of `OsmNode.__init__`: allocate an id, then store the
non-empty candidate tags. The allocator state is passed explicitly. -/
def OsmNode_new (s : OsmIdState) (x y : PyFloat)
    (tags : List (String × PyTagValue)) : OsmIdState × OsmGeom :=
  let r := get_new_id s
  (r.1, .node r.2 x y (append_non_empty_tags [] tags))

/-- Embedding of `OsmWay.__init__` (nodes start empty). -/
def OsmWay_new (s : OsmIdState) (tags : List (String × PyTagValue)) :
    OsmIdState × OsmGeom :=
  let r := get_new_id s
  (r.1, .way r.2 .nil (append_non_empty_tags [] tags))

/-- Embedding of `OsmRelation.__init__` (members start empty). -/
def OsmRelation_new (s : OsmIdState) (tags : List (String × PyTagValue)) :
    OsmIdState × OsmGeom :=
  let r := get_new_id s
  (r.1, .relation r.2 .nil (append_non_empty_tags [] tags))

/-- Role of the first member pair whose member equals the given entity,
used to state the specified semantics of `get_member_role`. -/
def firstMatchRole (ms : MemberList) (member : OsmGeom) : Option String :=
  match ms with
  | .nil => none
  | .cons g role rest =>
    if g = member then some role else firstMatchRole rest member

/-- Expected stored tag for one candidate pair, stated after the claim's
wording: a pair with a truthy value is stored as `key → [value]`, any
other pair is dropped. -/
def specStoredTag (p : String × PyTagValue) : Option (String × List String) :=
  match p.2 with
  | some v => if v = "" then none else some (p.1, [v])
  | none => none

/-- Concrete sample entity `X` used in the member-role example. -/
def sampleX : OsmGeom := .node 1 (.finite 0) (.finite 0) []

/-- Concrete sample entity `Y` used in the member-role example. -/
def sampleY : OsmGeom := .node 2 (.finite 0) (.finite 0) []

/-- Concrete sample entity `Z` (not a member) in the member-role example. -/
def sampleZ : OsmGeom := .node 3 (.finite 0) (.finite 0) []

/-! Helper lemmas about `XmlList` and the child-appending loops. The
mutual inductives have multi-motive recursors, so small single-type
induction principles are derived by structural recursion first. -/

/-- Eta rule for `XmlElement`. -/
lemma XmlElement.eta : (o : XmlElement) →
    XmlElement.mk o.name o.attrs o.children = o
  | .mk _ _ _ => rfl

/-- Spine induction for `XmlList`. -/
lemma xmlListInduct (P : XmlList → Prop) (hnil : P .nil)
    (hcons : ∀ e rest, P rest → P (.cons e rest)) : ∀ l, P l
  | .nil => hnil
  | .cons e rest => hcons e rest (xmlListInduct P hnil hcons rest)

/-- Spine induction for `GeomList`. -/
lemma geomListInduct (P : GeomList → Prop) (hnil : P .nil)
    (hcons : ∀ g rest, P rest → P (.cons g rest)) : ∀ l, P l
  | .nil => hnil
  | .cons g rest => hcons g rest (geomListInduct P hnil hcons rest)

/-- Spine induction for `MemberList`. -/
lemma memberListInduct (P : MemberList → Prop) (hnil : P .nil)
    (hcons : ∀ g role rest, P rest → P (.cons g role rest)) : ∀ l, P l
  | .nil => hnil
  | .cons g role rest => hcons g role rest (memberListInduct P hnil hcons rest)

lemma XmlList.app_nil_right (l : XmlList) : l.app .nil = l := by
  induction l using xmlListInduct with
  | hnil => rfl
  | hcons e rest ih => simp [XmlList.app, ih]

lemma XmlList.app_assoc (a b c : XmlList) :
    (a.app b).app c = a.app (b.app c) := by
  induction a using xmlListInduct with
  | hnil => rfl
  | hcons e rest ih => simp [XmlList.app, ih]

lemma XmlList.push_eq_app (l : XmlList) (e : XmlElement) :
    l.push e = l.app (.cons e .nil) := by
  induction l using xmlListInduct with
  | hnil => rfl
  | hcons x rest ih => simp [XmlList.push, XmlList.app, ih]

lemma XmlList.ofList_append (l₁ l₂ : List XmlElement) :
    XmlList.ofList (l₁ ++ l₂) = (XmlList.ofList l₁).app (XmlList.ofList l₂) := by
  induction l₁ with
  | nil => rfl
  | cons e rest ih => simp [XmlList.ofList, XmlList.app, ih]

lemma appendChild_eq (o : XmlElement) (c : XmlElement) :
    o.appendChild c = .mk o.name o.attrs (o.children.app (.cons c .nil)) := by
  simp [XmlElement.appendChild, XmlList.push_eq_app]

lemma appendTagChildren_eq (tags : List (String × List String))
    (o : XmlElement) :
    appendTagChildren o tags =
      .mk o.name o.attrs
        (o.children.app (XmlList.ofList (tags.map fun p =>
          .mk "tag" [("k", p.1), ("v", String.intercalate "," p.2)] .nil))) := by
  induction tags generalizing o with
  | nil =>
    simp [appendTagChildren, XmlList.ofList, XmlList.app_nil_right,
      XmlElement.eta]
  | cons p rest ih =>
    have step :
        appendTagChildren o (p :: rest) =
          appendTagChildren
            (o.appendChild
              (.mk "tag" [("k", p.1), ("v", String.intercalate "," p.2)] .nil))
            rest := rfl
    rw [step, ih, appendChild_eq]
    simp [XmlElement.name, XmlElement.attrs, XmlElement.children,
      XmlList.ofList, XmlList.app_assoc, XmlList.app]

lemma appendMemberChildren_eq (ms : MemberList) (o : XmlElement) :
    appendMemberChildren o ms =
      .mk o.name o.attrs
        (o.children.app (XmlList.ofList (ms.toList.map fun p =>
          .mk "member"
            [("type", member_type p.1), ("ref", intFormat p.1.id),
             ("role", p.2)] .nil))) := by
  induction ms using memberListInduct generalizing o with
  | hnil =>
    simp [appendMemberChildren, MemberList.toList, XmlList.ofList,
      XmlList.app_nil_right, XmlElement.eta]
  | hcons m role rest ih =>
    have step :
        appendMemberChildren o (.cons m role rest) =
          appendMemberChildren
            (o.appendChild
              (.mk "member"
                [("type", member_type m), ("ref", intFormat m.id),
                 ("role", role)] .nil))
            rest := rfl
    rw [step, ih, appendChild_eq]
    simp [XmlElement.name, XmlElement.attrs, XmlElement.children,
      MemberList.toList, XmlList.ofList, XmlList.app_assoc, XmlList.app]

/-! Helper lemmas about the ordered-dict model. -/

lemma dictLookup_cons {α : Type} (p : String × α) (d : List (String × α))
    (k : String) :
    dictLookup (p :: d) k = if p.1 = k then some p.2 else dictLookup d k := by
  by_cases h : p.1 = k
  · rw [if_pos h]
    unfold dictLookup
    rw [List.find?_cons_of_pos _ (by simp [h])]
    rfl
  · rw [if_neg h]
    unfold dictLookup
    rw [List.find?_cons_of_neg _ (by simp [h])]

lemma dictLookup_map_replace_ne {α : Type} (d : List (String × α))
    (k : String) (v : α) (k' : String) (hne : k' ≠ k) :
    dictLookup (d.map (fun p => if p.1 = k then (k, v) else p)) k' =
      dictLookup d k' := by
  induction d with
  | nil => rfl
  | cons p rest ih =>
    by_cases hp : p.1 = k
    · have hp' : ¬p.1 = k' := by
        rw [hp]
        exact fun h => hne h.symm
      simp only [List.map_cons, if_pos hp, dictLookup_cons,
        if_neg (show ¬k = k' from fun h => hne h.symm), if_neg hp']
      exact ih
    · simp only [List.map_cons, if_neg hp, dictLookup_cons]
      by_cases hp' : p.1 = k' <;> simp [hp', ih]

lemma dictLookup_append_singleton_ne {α : Type} (d : List (String × α))
    (k : String) (v : α) (k' : String) (hne : k' ≠ k) :
    dictLookup (d ++ [(k, v)]) k' = dictLookup d k' := by
  induction d with
  | nil =>
    simp [dictLookup, dictLookup_cons, show ¬k = k' from fun h => hne h.symm]
  | cons p rest ih =>
    by_cases hp' : p.1 = k' <;> simp [dictLookup_cons, hp', ih]

lemma dictSet_of_forall_ne {α : Type} (d : List (String × α)) (k : String)
    (v : α) (h : ∀ p ∈ d, p.1 ≠ k) : dictSet d k v = d ++ [(k, v)] := by
  have hany : d.any (fun p => p.1 = k) = false := by
    simp only [List.any_eq_false, decide_eq_true_eq]
    exact h
  simp [dictSet, hany]

lemma mem_dictSet {α : Type} {d : List (String × α)} {k : String} {v : α}
    {p : String × α} (h : p ∈ dictSet d k v) : p ∈ d ∨ p = (k, v) := by
  unfold dictSet at h
  split at h
  · obtain ⟨q, hq, hqe⟩ := List.mem_map.1 h
    by_cases hq1 : q.1 = k
    · right
      rw [← hqe]
      simp [hq1]
    · left
      rw [← hqe]
      simpa [hq1] using hq
  · rcases List.mem_append.1 h with h | h
    · exact Or.inl h
    · right
      simpa using h

lemma dictLookup_map_replace_self {α : Type} (d : List (String × α))
    (k : String) (v : α) (h : d.any (fun p => p.1 = k) = true) :
    dictLookup (d.map (fun p => if p.1 = k then (k, v) else p)) k = some v := by
  induction d with
  | nil => simp at h
  | cons p rest ih =>
    by_cases hp : p.1 = k
    · simp [hp, dictLookup_cons]
    · have h' : rest.any (fun q => q.1 = k) = true := by
        simpa [List.any_cons, hp] using h
      simpa [hp, dictLookup_cons] using ih h'

lemma dictLookup_append_singleton_self {α : Type} (d : List (String × α))
    (k : String) (v : α) (h : ∀ p ∈ d, p.1 ≠ k) :
    dictLookup (d ++ [(k, v)]) k = some v := by
  induction d with
  | nil => simp [dictLookup_cons, dictLookup]
  | cons p rest ih =>
    have hp : p.1 ≠ k := h p (by simp)
    have h' : ∀ q ∈ rest, q.1 ≠ k := fun q hq => h q (by simp [hq])
    simpa [dictLookup_cons, hp] using ih h'

lemma dictLookup_dictSet_self {α : Type} (d : List (String × α)) (k : String)
    (v : α) : dictLookup (dictSet d k v) k = some v := by
  unfold dictSet
  split
  case isTrue hany => exact dictLookup_map_replace_self d k v hany
  case isFalse hany =>
    refine dictLookup_append_singleton_self d k v ?_
    intro p hp hpk
    exact hany (List.any_eq_true.2 ⟨p, hp, by simp [hpk]⟩)

lemma dictLookup_dictSet_ne {α : Type} (d : List (String × α)) (k : String)
    (v : α) (k' : String) (hne : k' ≠ k) :
    dictLookup (dictSet d k v) k' = dictLookup d k' := by
  unfold dictSet
  split
  · exact dictLookup_map_replace_ne d k v k' hne
  · exact dictLookup_append_singleton_ne d k v k' hne

lemma dictLookup_dictUpdate_of_not_mem {α : Type} (e d : List (String × α))
    (k : String) (h : ∀ p ∈ e, p.1 ≠ k) :
    dictLookup (dictUpdate d e) k = dictLookup d k := by
  induction e generalizing d with
  | nil => rfl
  | cons p rest ih =>
    have h1 : p.1 ≠ k := h p (by simp)
    have h2 : ∀ q ∈ rest, q.1 ≠ k := fun q hq => h q (by simp [hq])
    show dictLookup (dictUpdate (dictSet d p.1 p.2) rest) k = _
    rw [ih _ h2, dictLookup_dictSet_ne _ _ _ _ (Ne.symm h1)]

lemma dictLookup_dictUpdate_of_mem {α : Type} (e d : List (String × α))
    (k : String) (v : α) (he : (e.map Prod.fst).Nodup)
    (h : dictLookup e k = some v) :
    dictLookup (dictUpdate d e) k = some v := by
  induction e generalizing d with
  | nil => simp [dictLookup] at h
  | cons p rest ih =>
    by_cases hp : p.1 = k
    · have hv : p.2 = v := by simpa [dictLookup_cons, hp] using h
      have hfst : p.1 ∉ rest.map Prod.fst := (List.nodup_cons.1 (by simpa using he)).1
      have hrest : ∀ q ∈ rest, q.1 ≠ k := by
        intro q hq hqk
        exact hfst (by
          rw [hp, ← hqk]
          exact List.mem_map.2 ⟨q, hq, rfl⟩)
      show dictLookup (dictUpdate (dictSet d p.1 p.2) rest) k = some v
      rw [dictLookup_dictUpdate_of_not_mem _ _ _ hrest, hp, hv,
        dictLookup_dictSet_self]
    · have h' : dictLookup rest k = some v := by
        simpa [dictLookup_cons, hp] using h
      have he' : (rest.map Prod.fst).Nodup :=
        (List.nodup_cons.1 (by simpa using he)).2
      exact ih _ he' h'

lemma appendNdChildren_attrs (ns : GeomList) (o : XmlElement) :
    (appendNdChildren o ns).attrs = o.attrs := by
  induction ns using geomListInduct generalizing o with
  | hnil => rfl
  | hcons n rest ih =>
    have step :
        appendNdChildren o (.cons n rest) =
          appendNdChildren
            (o.appendChild (.mk "nd" [("ref", intFormat n.id)] .nil)) rest := rfl
    rw [step, ih]
    rfl

lemma appendChild_attrs (o c : XmlElement) :
    (o.appendChild c).attrs = o.attrs := rfl

lemma appendTagChildren_attrs (tags : List (String × List String))
    (o : XmlElement) : (appendTagChildren o tags).attrs = o.attrs := by
  rw [appendTagChildren_eq]
  rfl

lemma appendMemberChildren_attrs (ms : MemberList) (o : XmlElement) :
    (appendMemberChildren o ms).attrs = o.attrs := by
  rw [appendMemberChildren_eq]
  rfl

/-! Helper lemmas about the allocator. -/

lemma allocIter_eq (S d : ℤ) (k : ℕ) :
    allocIter ⟨S, d⟩ k = ⟨S + d * k, d⟩ := by
  induction k with
  | zero => simp [allocIter]
  | succ k ih =>
    simp only [allocIter, ih, get_new_id, OsmIdState.mk.injEq]
    refine ⟨?_, trivial⟩
    push_cast
    ring

lemma kth_id_eq (S d : ℤ) (k : ℕ) (hk : 1 ≤ k) :
    kth_id ⟨S, d⟩ k = S + d * k := by
  unfold kth_id
  rw [allocIter_eq]
  simp only [get_new_id]
  have hcast : ((k - 1 : ℕ) : ℤ) = (k : ℤ) - 1 := by omega
  rw [hcast]
  ring

/-! Helper lemmas about tag construction. -/

lemma append_non_empty_tags_eq_filterMap (cand : List (String × PyTagValue)) :
    ∀ acc : List (String × List String),
      (cand.map Prod.fst).Nodup →
      (∀ p ∈ acc, ∀ q ∈ cand, p.1 ≠ q.1) →
      append_non_empty_tags acc cand = acc ++ cand.filterMap specStoredTag := by
  induction cand with
  | nil =>
    intro acc _ _
    simp [append_non_empty_tags]
  | cons q rest ih =>
    intro acc hc hd
    have hc1 : q.1 ∉ rest.map Prod.fst := (List.nodup_cons.1 (by simpa using hc)).1
    have hc2 : (rest.map Prod.fst).Nodup := (List.nodup_cons.1 (by simpa using hc)).2
    have hdrest : ∀ p ∈ acc, ∀ r ∈ rest, p.1 ≠ r.1 :=
      fun p hp r hr => hd p hp r (by simp [hr])
    match hq : q.2 with
    | none =>
      have step : append_non_empty_tags acc (q :: rest) =
          append_non_empty_tags acc rest := by
        simp [append_non_empty_tags, hq]
      rw [step, ih acc hc2 hdrest]
      simp [specStoredTag, hq]
    | some v =>
      by_cases hv : v = ""
      · have step : append_non_empty_tags acc (q :: rest) =
            append_non_empty_tags acc rest := by
          simp [append_non_empty_tags, hq, hv]
        rw [step, ih acc hc2 hdrest]
        simp [specStoredTag, hq, hv]
      · have hfresh : ∀ p ∈ acc, p.1 ≠ q.1 := fun p hp => hd p hp q (by simp)
        have step : append_non_empty_tags acc (q :: rest) =
            append_non_empty_tags (dictSet acc q.1 [v]) rest := by
          simp [append_non_empty_tags, hq, hv]
        rw [step, dictSet_of_forall_ne acc q.1 [v] hfresh]
        have hd' : ∀ p ∈ acc ++ [(q.1, [v])], ∀ r ∈ rest, p.1 ≠ r.1 := by
          intro p hp r hr
          rcases List.mem_append.1 hp with hp | hp
          · exact hdrest p hp r hr
          · have : p = (q.1, [v]) := by simpa using hp
            rw [this]
            intro hcontra
            exact hc1 (hcontra ▸ List.mem_map.2 ⟨r, hr, rfl⟩)
        rw [ih _ hc2 hd']
        simp [specStoredTag, hq, hv]

lemma append_non_empty_tags_singleton (cand : List (String × PyTagValue)) :
    ∀ acc : List (String × List String),
      (∀ p ∈ acc, p.2.length = 1) →
      ∀ p ∈ append_non_empty_tags acc cand, p.2.length = 1 := by
  induction cand with
  | nil =>
    intro acc h p hp
    exact h p hp
  | cons q rest ih =>
    intro acc h p hp
    match hq : q.2 with
    | none =>
      have step : append_non_empty_tags acc (q :: rest) =
          append_non_empty_tags acc rest := by
        simp [append_non_empty_tags, hq]
      exact ih acc h p (step ▸ hp)
    | some v =>
      by_cases hv : v = ""
      · have step : append_non_empty_tags acc (q :: rest) =
            append_non_empty_tags acc rest := by
          simp [append_non_empty_tags, hq, hv]
        exact ih acc h p (step ▸ hp)
      · have step : append_non_empty_tags acc (q :: rest) =
            append_non_empty_tags (dictSet acc q.1 [v]) rest := by
          simp [append_non_empty_tags, hq, hv]
        refine ih (dictSet acc q.1 [v]) ?_ p (step ▸ hp)
        intro r hr
        rcases mem_dictSet hr with hr | hr
        · exact h r hr
        · rw [hr]
          rfl

/-! Claim theorems. -/

/-- C1, counterexample: the claim says the formatter strips only trailing
zero characters and that `0.0` at precision 6 serializes to the empty
string, but `str.strip` removes the character from both ends, so every
bounds attribute for the value `0.0` is the single character `"."`,
not `""`. -/
theorem c1_precision_strip_counterexample :
    OsmBoundary.to_xml ⟨true, 0, 0, 0, 0⟩ 6 =
      "<bounds minlon=\".\" minlat=\".\" maxlon=\".\" maxlat=\".\"/>" ∧
    pyStripZeros (pctFormatFixed 0 6) ≠ "" :=
  ⟨by decide, by decide⟩

/-- C1, amended: the coordinate formatter renders the value with exactly
`precision` digits after the decimal point and then strips the character
`'0'` from both ends of the formatted string (leading and trailing); at
precision 6 the value `52.5` formats to `"52.5"`, the value `0.5` to
`".5"`, and the value `0.0` to `"."`, and these are exactly the values
placed in BoundingBox and point serializations. -/
theorem c1_precision_strip_amended :
    pctFormatFixed (Rat.mk' 105 2) 6 = "52.500000" ∧
    pyStripZeros (pctFormatFixed (Rat.mk' 105 2) 6) = "52.5" ∧
    pyStripZeros (pctFormatFixed 0 6) = "." ∧
    pyStripZeros (pctFormatFixed (Rat.mk' 1 2) 6) = ".5" ∧
    OsmBoundary.to_xml ⟨true, Rat.mk' 105 2, 0, Rat.mk' 1 2, 0⟩ 6 =
      "<bounds minlon=\"52.5\" minlat=\".5\" maxlon=\".\" maxlat=\".\"/>" ∧
    (OsmGeom.node 1 (PyFloat.finite 0)
        (PyFloat.finite (Rat.mk' 105 2)) []).to_xml [] 6 =
      "<node visible=\"true\" id=\"1\" lat=\"52.5\" lon=\".\"/>" := by
  refine ⟨?_, ?_, ?_, ?_, ?_, ?_⟩ <;> decide

/-- C2: starting from counter `S`, the `k`-th allocated identifier is
`S + k` when the step is `+1` and `S - k` when the step is `-1`; distinct
allocation ranks within one process lifetime always receive distinct
identifiers. -/
theorem c2_allocator_sequential :
    ∀ (S : ℤ) (k : ℕ), 1 ≤ k →
      (kth_id ⟨S, 1⟩ k = S + k ∧ kth_id ⟨S, -1⟩ k = S - k) ∧
      ∀ j : ℕ, 1 ≤ j → j ≠ k →
        kth_id ⟨S, 1⟩ j ≠ kth_id ⟨S, 1⟩ k ∧
        kth_id ⟨S, -1⟩ j ≠ kth_id ⟨S, -1⟩ k := by
  intro S k hk
  constructor
  · constructor
    · rw [kth_id_eq S 1 k hk]
      ring
    · rw [kth_id_eq S (-1) k hk]
      ring
  · intro j hj hne
    rw [kth_id_eq S 1 j hj, kth_id_eq S 1 k hk, kth_id_eq S (-1) j hj,
      kth_id_eq S (-1) k hk]
    constructor <;> (intro hcontra; apply hne; omega)

/-- Witness for C2 at `S = 100`, `k = 2`, `j = 1`. -/
theorem c2_allocator_sequential_witness :
    kth_id ⟨100, 1⟩ 2 = 100 + (2 : ℕ) ∧
    kth_id ⟨100, -1⟩ 2 = 100 - (2 : ℕ) ∧
    kth_id ⟨100, 1⟩ 1 ≠ kth_id ⟨100, 1⟩ 2 := by
  have h := c2_allocator_sequential 100 2 (by decide)
  exact ⟨h.1.1, h.1.2, (h.2 1 (by decide) (by decide)).1⟩

/-- C3, counterexample: the claim says `set_id` sets the step to `-1`
when the direction flag is false, but from a state whose step is `+1`,
`set_id 5 false` leaves the step at `+1`. -/
theorem c3_set_start_counterexample :
    (OsmId.set_id ⟨0, 1⟩ 5 false).element_id_counter_incr ≠ -1 := by decide

/-- C3, amended: `set_id(value, is_positive)` resets the counter to
`value` and sets the step to `+1` when `is_positive` is true; when
`is_positive` is false the step is left unchanged (so it stays `-1` only
if it was still `-1`, e.g. the default). -/
theorem c3_set_start_amended :
    ∀ (s : OsmIdState) (value : ℤ) (positive_direction : Bool),
      (OsmId.set_id s value positive_direction).element_id_counter = value ∧
      (OsmId.set_id s value positive_direction).element_id_counter_incr =
        (if positive_direction then 1 else s.element_id_counter_incr) :=
  fun _ _ _ => ⟨rfl, rfl⟩

/-- C4, counterexample: the claim says serializing a point with a
non-finite coordinate fails with `PrecisionFormatError` before any markup
is produced; the code has no such error path, and a node whose `x` is NaN
serializes to a complete element with `lon="nan"`. -/
theorem c4_nonfinite_counterexample :
    (OsmGeom.node 1 PyFloat.nan (PyFloat.finite 0) []).to_xml [] 6 =
      "<node visible=\"true\" id=\"1\" lat=\".\" lon=\"nan\"/>" := by decide

/-- C4, amended: serializing a point with a non-finite coordinate does
not fail; the `%f` conversion renders NaN and infinities as `nan`, `inf`
and `-inf`, and those strings are emitted as the `lat`/`lon` attribute
values of the produced element. -/
theorem c4_nonfinite_amended :
    ∀ (i : ℤ) (y : PyFloat) (tags : List (String × List String)) (d : ℕ),
      dictLookup (((OsmGeom.node i PyFloat.nan y tags).to_xml_element
          [] d).attrs) "lon" = some "nan" ∧
      dictLookup (((OsmGeom.node i PyFloat.inf y tags).to_xml_element
          [] d).attrs) "lon" = some "inf" ∧
      dictLookup (((OsmGeom.node i PyFloat.ninf y tags).to_xml_element
          [] d).attrs) "lon" = some "-inf" ∧
      dictLookup (((OsmGeom.node i y PyFloat.nan tags).to_xml_element
          [] d).attrs) "lat" = some "nan" := by
  intro i y tags d
  refine ⟨?_, ?_, ?_, ?_⟩ <;>
    · show dictLookup ((appendTagChildren _ tags).attrs) _ = _
      rw [appendTagChildren_attrs]
      rfl

/-- C5: the first `add_envelope` call adopts the given envelope and sets
the validity flag; every subsequent call replaces the bounds by the union
(minimum of minimums, maximum of maximums); the worked example
`add_envelope 1 2 3 4` then `add_envelope 0 5 3 3` yields
`(0, 5, 3, 4)`; the box never shrinks once valid and the flag never
returns to false. -/
theorem c5_bounding_box :
    (∀ (b : OsmBoundary) (minx maxx miny maxy : ℚ), b.is_valid = false →
        b.add_envelope minx maxx miny maxy = ⟨true, minx, maxx, miny, maxy⟩) ∧
    (∀ (b : OsmBoundary) (minx maxx miny maxy : ℚ), b.is_valid = true →
        b.add_envelope minx maxx miny maxy =
          ⟨true, min b.minlon minx, max b.maxlon maxx,
            min b.minlat miny, max b.maxlat maxy⟩) ∧
    (OsmBoundary.init.add_envelope 1 2 3 4).add_envelope 0 5 3 3 =
      ⟨true, 0, 5, 3, 4⟩ ∧
    (∀ (b : OsmBoundary) (minx maxx miny maxy : ℚ),
        (b.add_envelope minx maxx miny maxy).is_valid = true) ∧
    (∀ (b : OsmBoundary) (minx maxx miny maxy : ℚ), b.is_valid = true →
        (b.add_envelope minx maxx miny maxy).minlon ≤ b.minlon ∧
        b.maxlon ≤ (b.add_envelope minx maxx miny maxy).maxlon ∧
        (b.add_envelope minx maxx miny maxy).minlat ≤ b.minlat ∧
        b.maxlat ≤ (b.add_envelope minx maxx miny maxy).maxlat) := by
  refine ⟨?_, ?_, ?_, ?_, ?_⟩
  · intro b minx maxx miny maxy h
    simp [OsmBoundary.add_envelope, h]
  · intro b minx maxx miny maxy h
    simp [OsmBoundary.add_envelope, h]
  · decide
  · intro b minx maxx miny maxy
    unfold OsmBoundary.add_envelope
    by_cases h : b.is_valid <;> simp [h]
  · intro b minx maxx miny maxy h
    simp [OsmBoundary.add_envelope, h, min_le_left, le_max_left]

/-- Witness for C5: first call from the initial state adopts the envelope;
second call on a valid box takes the componentwise union. -/
theorem c5_bounding_box_witness :
    OsmBoundary.init.add_envelope 1 2 3 4 = ⟨true, 1, 2, 3, 4⟩ ∧
    (⟨true, 1, 2, 3, 4⟩ : OsmBoundary).add_envelope 0 5 3 3 =
      ⟨true, min 1 0, max 2 5, min 3 3, max 4 3⟩ := by
  constructor
  · exact c5_bounding_box.1 OsmBoundary.init 1 2 3 4 rfl
  · exact c5_bounding_box.2.1 ⟨true, 1, 2, 3, 4⟩ 0 5 3 3 rfl

/-- C6: exactly the candidate pairs with truthy values are stored, each
as the key mapped to a one-element value list; in particular the tags
`name=Main St`, `note=""`, `ref=None` store only `name → [Main St]`. -/
theorem c6_tag_filtering :
    (∀ cand : List (String × PyTagValue), (cand.map Prod.fst).Nodup →
        append_non_empty_tags [] cand = cand.filterMap specStoredTag) ∧
    append_non_empty_tags []
        [("name", some "Main St"), ("note", some ""), ("ref", none)] =
      [("name", ["Main St"])] := by
  constructor
  · intro cand hc
    have h := append_non_empty_tags_eq_filterMap cand [] hc (by simp)
    simpa using h
  · decide

/-- Witness for C6 at the spec's worked example. -/
theorem c6_tag_filtering_witness :
    append_non_empty_tags []
        [("name", some "Main St"), ("note", some ""), ("ref", none)] =
      [("name", some "Main St"), ("note", some ""),
        ("ref", (none : PyTagValue))].filterMap specStoredTag :=
  c6_tag_filtering.1
    [("name", some "Main St"), ("note", some ""), ("ref", none)] (by decide)

/-- C7: a relation serializes one member child per `(entity, role)` pair
in sequence order, each with the kind discriminator, the referenced id
and the role; then exactly one synthetic `type=multipolygon` tag child is
appended before all of the relation's own stored tag children. -/
theorem c7_relation_children :
    ∀ (i : ℤ) (members : MemberList) (tags : List (String × List String))
      (attributes : List (String × String)) (d : ℕ),
      (OsmGeom.relation i members tags).to_xml_element attributes d =
        .mk "relation"
          (dictUpdate [("visible", "true"), ("id", intFormat i)] attributes)
          (XmlList.ofList
            (members.toList.map (fun p =>
              XmlElement.mk "member"
                [("type", member_type p.1), ("ref", intFormat p.1.id),
                 ("role", p.2)] .nil)
             ++ [XmlElement.mk "tag" [("k", "type"), ("v", "multipolygon")]
                  .nil]
             ++ tags.map (fun p =>
              XmlElement.mk "tag"
                [("k", p.1), ("v", String.intercalate "," p.2)] .nil))) := by
  intro i members tags attributes d
  show appendTagChildren _ tags = _
  rw [appendTagChildren_eq, appendChild_eq, appendMemberChildren_eq]
  simp only [XmlElement.name, XmlElement.attrs, XmlElement.children]
  rw [XmlList.ofList_append, XmlList.ofList_append]
  simp [XmlList.app, XmlList.app_assoc, XmlList.ofList]

/-- C8: the member-role lookup returns the role of the first matching
member pair when the entity is a member, and the empty string when the
entity is not a member or its recorded role is empty; for members
`[(X, outer), (Y, inner)]` it returns `outer` for `X` and `""` for a
non-member `Z`. -/
theorem c8_member_role :
    (∀ (ms : MemberList) (member : OsmGeom),
        get_member_role ms member = (firstMatchRole ms member).getD "") ∧
    get_member_role (.cons sampleX "outer" (.cons sampleY "inner" .nil))
        sampleX = "outer" ∧
    get_member_role (.cons sampleX "outer" (.cons sampleY "inner" .nil))
        sampleZ = "" := by
  refine ⟨?_, by decide, by decide⟩
  intro ms member
  induction ms using memberListInduct with
  | hnil => rfl
  | hcons g role rest ih =>
    by_cases hg : g = member
    · by_cases hr : role = ""
      · subst hr
        simp [get_member_role, memberRolesOf, firstMatchRole, hg, ite_self]
      · simp [get_member_role, memberRolesOf, firstMatchRole, hg, hr]
    · simpa [get_member_role, memberRolesOf, firstMatchRole, hg] using ih

/-- C9: caller-supplied extra attributes win over the entity's computed
attributes on key collision, for every entity kind, because the computed
dict is built first and then updated with the caller's dict. -/
theorem c9_attr_precedence :
    ∀ (g : OsmGeom) (attributes : List (String × String)) (d : ℕ)
      (k v : String),
      (attributes.map Prod.fst).Nodup →
      dictLookup attributes k = some v →
      dictLookup ((g.to_xml_element attributes d).attrs) k = some v := by
  intro g attributes d k v hn hv
  match g with
  | .node i x y tags =>
    show dictLookup ((appendTagChildren _ tags).attrs) k = some v
    rw [appendTagChildren_attrs]
    exact dictLookup_dictUpdate_of_mem attributes _ k v hn hv
  | .way i ns tags =>
    show dictLookup ((appendTagChildren (appendNdChildren _ ns) tags).attrs)
        k = some v
    rw [appendTagChildren_attrs, appendNdChildren_attrs]
    exact dictLookup_dictUpdate_of_mem attributes _ k v hn hv
  | .relation i ms tags =>
    show dictLookup
        ((appendTagChildren ((appendMemberChildren
          (XmlElement.mk "relation"
            (dictUpdate [("visible", "true"), ("id", intFormat i)] attributes)
            .nil) ms).appendChild
          (XmlElement.mk "tag" [("k", "type"), ("v", "multipolygon")] .nil))
          tags).attrs) k = some v
    rw [appendTagChildren_attrs, appendChild_attrs, appendMemberChildren_attrs]
    exact dictLookup_dictUpdate_of_mem attributes _ k v hn hv

/-- Witness for C9: a caller-supplied `id` attribute overrides the
computed `id` of a node. -/
theorem c9_attr_precedence_witness :
    dictLookup (((OsmGeom.node 1 (.finite 0) (.finite 0) []).to_xml_element
        [("id", "99")] 6).attrs) "id" = some "99" :=
  c9_attr_precedence (OsmGeom.node 1 (.finite 0) (.finite 0) [])
    [("id", "99")] 6 "id" "99" (by decide) (by decide)

/-- C10: tag construction stores only one-element value lists, and the
construction operation preserves the all-singleton invariant of the tag
store; consequently the comma-join used during serialization of a
singleton value list is the stored value itself. -/
theorem c10_singleton_tags :
    (∀ (tags0 : List (String × List String))
        (cand : List (String × PyTagValue)),
        (∀ p ∈ tags0, p.2.length = 1) →
        ∀ p ∈ append_non_empty_tags tags0 cand, p.2.length = 1) ∧
    ∀ v : String, String.intercalate "," [v] = v := by
  constructor
  · intro tags0 cand h p hp
    exact append_non_empty_tags_singleton cand tags0 h p hp
  · intro v
    rfl

/-- Witness for C10 on a concretely constructed tag store. -/
theorem c10_singleton_tags_witness :
    (("name", ["Main St"]) : String × List String).2.length = 1 ∧
    String.intercalate "," ["Main St"] = "Main St" :=
  ⟨c10_singleton_tags.1 [] [("name", some "Main St")] (by simp)
      ("name", ["Main St"]) (by decide),
    c10_singleton_tags.2 "Main St"⟩

end Ogr2Osm
